import Mathlib

/-!
Verification of the crust stack-machine: a shallow embedding of the parser
(program.go) and the interpreter (interpreter.go), with theorems about the
behaviours described in the design document.

Modelling conventions:
* Go `interface{}` cells (instruction stream and operand stack) become the
  inductive `Crust.Value` with exactly the variants that occur: op codes,
  machine integers and strings.  Go machine integers are modelled as
  unbounded `Int` (no claim under scrutiny involves 64-bit overflow).
* The mutable `Interpreter` struct becomes an explicit state record; every
  Go method that mutates the receiver returns the updated record.  A Go
  method that mutates and then returns an error yields the mutated state
  together with the error, so partial mutation before a failure is kept.
* The output writer is modelled as the string of everything written so far.
* `io.EOF` is the distinguished `StepErr.eof` / `StepResult.eof`, separate
  from every `errors.New`-style failure message.
-/

deriving instance DecidableEq for Except

namespace Crust

/-- Operation codes of the crust VM (crust.go).  The Go numeric constant of
each op code is recorded by `OpCode.id`. -/
inductive OpCode where
  | putln
  | dup
  | put
  | jump
  | jumpLessThan
  | ipush
  | iadd
  | isubtract
  | spush
  | sadd
deriving DecidableEq

/-- Numeric byte value of each op-code constant in crust.go. -/
def OpCode.id : OpCode → Nat
  | .putln => 1
  | .dup => 2
  | .put => 3
  | .jump => 4
  | .jumpLessThan => 5
  | .ipush => 11
  | .iadd => 12
  | .isubtract => 14
  | .spush => 21
  | .sadd => 22

/-- A dynamically typed cell (`interface{}` in Go).  Both the flat
instruction sequence and the operand stack hold these.  Only op codes,
ints and strings ever occur. -/
inductive Value where
  | op : OpCode → Value
  | int : Int → Value
  | str : String → Value
deriving DecidableEq

/-- Argument kinds of an instruction signature (crust.go `ArgType`). -/
inductive ArgType where
  | argInt
  | argString
deriving DecidableEq

/-- An entry of the fixed instruction table (crust.go
`instructionSignature`). -/
structure instructionSignature where
  op : OpCode
  args : List ArgType
deriving DecidableEq

/-- The fixed instruction table (crust.go `instructionSignatures`), as a
lookup function: mnemonic token to signature, `none` for unknown tokens. -/
def instructionSignatures : String → Option instructionSignature
  | "putln" => some ⟨.putln, []⟩
  | "dup" => some ⟨.dup, []⟩
  | "put" => some ⟨.put, []⟩
  | "jump" => some ⟨.jump, [.argInt]⟩
  | "jumpl" => some ⟨.jumpLessThan, [.argInt, .argInt]⟩
  | "ipush" => some ⟨.ipush, [.argInt]⟩
  | "iadd" => some ⟨.iadd, []⟩
  | "isub" => some ⟨.isubtract, []⟩
  | "spush" => some ⟨.spush, [.argString]⟩
  | "sadd" => some ⟨.sadd, []⟩
  | _ => none

/-- A parsed crust program (program.go `Program`): the flat instruction
sequence and the jump table mapping 0-based line index to the offset of
that line's op-code cell. -/
structure Program where
  instructions : List Value
  jumpTable : List Nat
deriving DecidableEq

/- ===================== Parser (program.go) ===================== -/

/-- Decimal value of a list of digit characters. -/
def digitsToNat (l : List Char) : Nat :=
  l.foldl (fun acc c => acc * 10 + (c.toNat - '0'.toNat)) 0

/-- Base-10 signed integer parsing, modelling `strconv.Atoi`: an optional
sign followed by at least one decimal digit.  (Go additionally rejects
values outside the 64-bit range; that bound is abstracted away since `Int`
is unbounded here.) -/
def Atoi (s : String) : Except String Int :=
  match s.data with
  | [] => .error ("strconv.Atoi: parsing \"" ++ s ++ "\": invalid syntax")
  | '-' :: rest =>
    if rest.all Char.isDigit && !rest.isEmpty then
      .ok (-(digitsToNat rest : Int))
    else
      .error ("strconv.Atoi: parsing \"" ++ s ++ "\": invalid syntax")
  | '+' :: rest =>
    if rest.all Char.isDigit && !rest.isEmpty then
      .ok (digitsToNat rest : Int)
    else
      .error ("strconv.Atoi: parsing \"" ++ s ++ "\": invalid syntax")
  | l =>
    if l.all Char.isDigit then
      .ok (digitsToNat l : Int)
    else
      .error ("strconv.Atoi: parsing \"" ++ s ++ "\": invalid syntax")

/-- One argument cell from one token (program.go `getArgument` together
with the value part of `nextInt` / `nextString`): an integer argument is
parsed base-10, a string argument is the token verbatim. -/
def getArgument (t : ArgType) (tok : String) : Except String Value :=
  match t with
  | .argInt =>
    match Atoi tok with
    | .error e => .error e
    | .ok n => .ok (.int n)
  | .argString => .ok (.str tok)

/-- Consume one token per declared argument kind (the scanning loop of
program.go `parseOp`); running out of tokens is the "end of program" error
of `nextInt`/`nextString`.  Returns the argument cells in declaration order
together with the unconsumed remainder of the token stream. -/
def getArguments : List ArgType → List String → Except String (List Value × List String)
  | [], toks => .ok ([], toks)
  | _ :: _, [] => .error "end of program"
  | t :: ts, tok :: toks =>
    match getArgument t tok with
    | .error e => .error e
    | .ok v =>
      match getArguments ts toks with
      | .error e => .error e
      | .ok (vs, rest) => .ok (v :: vs, rest)

/-- Parse one source line (program.go `parseOp`): look the mnemonic up in
the fixed table (unknown mnemonic is the "invalid instruction" error), then
consume its arguments.  Returns the op-code cell followed by the argument
cells, plus the remaining tokens. -/
def parseOp (token : String) (rest : List String) : Except String (List Value × List String) :=
  match instructionSignatures token with
  | none => .error ("invalid instruction " ++ token)
  | some sig =>
    match getArguments sig.args rest with
    | .error e => .error e
    | .ok (args, rest) => .ok (Value.op sig.op :: args, rest)

/-- The scanning loop of program.go `parseProgram`, with explicit fuel so
that the definition is structurally recursive (each iteration consumes at
least the mnemonic token, so fuel = number of tokens always suffices; the
fuel-exhaustion branch is unreachable from `parseProgram`).  Per line, the
pre-append length of the instruction sequence is appended to the jump table
and then the line's cells are appended to the instruction sequence. -/
def parseProgramLoop : Nat → List String → List Value → List Nat →
    Except String (List Value × List Nat)
  | _, [], instrs, jt => .ok (instrs, jt)
  | 0, _ :: _, _, _ => .error "out of fuel"
  | fuel + 1, token :: rest, instrs, jt =>
    match parseOp token rest with
    | .error e => .error ("unable to parse op code: " ++ e)
    | .ok (cells, rest) =>
      parseProgramLoop fuel rest (instrs ++ cells) (jt ++ [instrs.length])

/-- program.go `parseProgram`, over an already-tokenized stream. -/
def parseProgram (tokens : List String) : Except String (List Value × List Nat) :=
  parseProgramLoop tokens.length tokens [] []

/-- Worker for `tokenize`: scans the character stream keeping the current
(reversed) partial token. -/
def tokenizeAux : List Char → List Char → List String
  | [], [] => []
  | [], cur => [⟨cur.reverse⟩]
  | c :: cs, cur =>
    if c.isWhitespace then
      match cur with
      | [] => tokenizeAux cs []
      | _ => ⟨cur.reverse⟩ :: tokenizeAux cs []
    else
      tokenizeAux cs (c :: cur)

/-- Whitespace tokenization (`bufio.ScanWords`): maximal runs of
non-whitespace characters, in order. -/
def tokenize (s : String) : List String :=
  tokenizeAux s.data []

/-- program.go `NewProgramFromReader`: tokenize, parse, wrap the error. -/
def NewProgramFromReader (src : String) : Except String Program :=
  match parseProgram (tokenize src) with
  | .error e => .error ("unable to parse r: " ++ e)
  | .ok (instrs, jt) => .ok ⟨instrs, jt⟩

/- ===================== Interpreter (interpreter.go) ===================== -/

/-- Interpreter state (interpreter.go `Interpreter`): the bound program, the
instruction pointer, the operand stack (head is the top of the stack) and
the output written so far to the stdout sink.  The `debug` flag only routes
trace text to a logger, never to the output sink, and is omitted. -/
structure Interpreter where
  program : Program
  ip : Nat
  stack : List Value
  output : String
deriving DecidableEq

/-- interpreter.go `NewInterpreter` with an empty output sink. -/
def NewInterpreter (p : Program) : Interpreter :=
  ⟨p, 0, [], ""⟩

/-- Error-or-end-of-stream signal of `nextInstruction`: `io.EOF` is
distinguished from every failure message. -/
inductive StepErr where
  | eof
  | fail : String → StepErr
deriving DecidableEq

/-- Result of one `Step` (interpreter.go): the state after the step is kept
in every case, because the Go interpreter mutates in place and an error
return leaves all mutations (advanced pointer, popped operands) behind. -/
inductive StepResult where
  | ok : Interpreter → StepResult
  | eof : Interpreter → StepResult
  | err : Interpreter → String → StepResult
deriving DecidableEq

/-- The state carried by any step result. -/
def StepResult.state : StepResult → Interpreter
  | .ok i => i
  | .eof i => i
  | .err i _ => i

/-- Rendering a value the way `fmt.Fprint` prints a single operand: ints in
decimal, strings verbatim (an op-code byte would print as its number). -/
def render : Value → String
  | .int (.ofNat n) => Nat.repr n
  | .int (.negSucc n) => "-" ++ Nat.repr (n + 1)
  | .str s => s
  | .op c => Nat.repr c.id

/-- interpreter.go `asInt`: dynamic type assertion to int. -/
def asInt : Value → Except String Int
  | .int v => .ok v
  | v => .error ("value not int: " ++ render v)

/-- interpreter.go `asString`: dynamic type assertion to string. -/
def asString : Value → Except String String
  | .str v => .ok v
  | v => .error ("value not string: " ++ render v)

/-- interpreter.go `pop` on the bare stack: top value and remainder, or the
stack-underflow error. -/
def pop : List Value → Except String (Value × List Value)
  | [] => .error "stack is empty"
  | v :: rest => .ok (v, rest)

/-- interpreter.go `peek`: top value without removing it. -/
def peek : List Value → Except String Value
  | [] => .error "stack is empty"
  | v :: _ => .ok v

/-- Replace the operand stack. -/
def withStack (i : Interpreter) (s : List Value) : Interpreter :=
  ⟨i.program, i.ip, s, i.output⟩

/-- Replace the output sink contents. -/
def withOutput (i : Interpreter) (o : String) : Interpreter :=
  ⟨i.program, i.ip, i.stack, o⟩

/-- Replace the instruction pointer. -/
def withIp (i : Interpreter) (p : Nat) : Interpreter :=
  ⟨i.program, p, i.stack, i.output⟩

/-- interpreter.go `push`. -/
def push (i : Interpreter) (v : Value) : Interpreter :=
  withStack i (v :: i.stack)

/-- interpreter.go `nextInstruction`: `io.EOF` exactly when the pointer sits
at the end of the sequence, otherwise the cell there with the pointer
advanced.  (A pointer beyond the end would panic in Go; it is modelled as a
failure and is unreachable from parsed programs.) -/
def nextInstruction (i : Interpreter) : Except StepErr (Value × Interpreter) :=
  if i.ip = i.program.instructions.length then
    .error .eof
  else
    match i.program.instructions.get? i.ip with
    | some instr => .ok (instr, ⟨i.program, i.ip + 1, i.stack, i.output⟩)
    | none => .error (.fail "instruction pointer out of bounds")

/-- interpreter.go `nextInt`: fetch a cell and assert it is an int.  The
error case carries the state as mutated so far (the pointer has already
advanced when the kind assertion fails). -/
def nextInt (i : Interpreter) : Except (Interpreter × StepErr) (Int × Interpreter) :=
  match nextInstruction i with
  | .error e => .error (i, e)
  | .ok (v, j) =>
    match asInt v with
    | .error m => .error (j, .fail m)
    | .ok n => .ok (n, j)

/-- interpreter.go `nextString`. -/
def nextString (i : Interpreter) : Except (Interpreter × StepErr) (String × Interpreter) :=
  match nextInstruction i with
  | .error e => .error (i, e)
  | .ok (v, j) =>
    match asString v with
    | .error m => .error (j, .fail m)
    | .ok s => .ok (s, j)

/-- interpreter.go `popInt`: pop, then assert int; a failed assertion leaves
the value popped. -/
def popInt (i : Interpreter) : Except (Interpreter × String) (Int × Interpreter) :=
  match pop i.stack with
  | .error m => .error (i, m)
  | .ok (v, rest) =>
    match asInt v with
    | .error m => .error (withStack i rest, m)
    | .ok n => .ok (n, withStack i rest)

/-- interpreter.go `popString`. -/
def popString (i : Interpreter) : Except (Interpreter × String) (String × Interpreter) :=
  match pop i.stack with
  | .error m => .error (i, m)
  | .ok (v, rest) =>
    match asString v with
    | .error m => .error (withStack i rest, m)
    | .ok s => .ok (s, withStack i rest)

/-- interpreter.go `jump`: translate the 1-based line number to a 0-based
jump-table index; out of range is the invalid-jump-target error, otherwise
the pointer is set to the table entry (in bounds by the guard, so the
default of `getD` is never taken). -/
def jump (i : Interpreter) (line : Int) : Except String Interpreter :=
  if line - 1 < 0 ∨ (i.program.jumpTable.length : Int) ≤ line - 1 then
    .error "invalid jump index"
  else
    .ok (withIp i (i.program.jumpTable.getD (line - 1).toNat 0))

/-- Convert a fetch failure inside `executeOp` to a step result: `io.EOF`
from an argument fetch propagates as the end-of-program signal, exactly as
the Go `return err`. -/
def stepErrOf (i : Interpreter) : StepErr → StepResult
  | .eof => .eof i
  | .fail m => .err i m

/-- interpreter.go `executeOp`: one operation, given the state just after
its op-code cell was fetched.  In the `jumpLessThan` case the Go code
discards the error returned by `jump` (`i.jump(line)` with no assignment),
so an out-of-range conditional jump silently falls through. -/
def executeOp (c : OpCode) (i : Interpreter) : StepResult :=
  match c with
  | .putln => .ok (withOutput i (i.output ++ "\n"))
  | .dup =>
    match peek i.stack with
    | .error m => .err i m
    | .ok v => .ok (push i v)
  | .put =>
    match pop i.stack with
    | .error m => .err i m
    | .ok (top, rest) => .ok ⟨i.program, i.ip, rest, i.output ++ render top⟩
  | .jump =>
    match nextInt i with
    | .error (j, e) => stepErrOf j e
    | .ok (line, j) =>
      match jump j line with
      | .error m => .err j m
      | .ok j2 => .ok j2
  | .jumpLessThan =>
    match nextInt i with
    | .error (j, e) => stepErrOf j e
    | .ok (value, j) =>
      match nextInt j with
      | .error (k, e) => stepErrOf k e
      | .ok (line, k) =>
        match popInt k with
        | .error (l, m) => .err l m
        | .ok (top, l) =>
          if top < value then
            match jump l line with
            | .error _ => .ok l
            | .ok l2 => .ok l2
          else
            .ok l
  | .ipush =>
    match nextInt i with
    | .error (j, e) => stepErrOf j e
    | .ok (v, j) => .ok (push j (.int v))
  | .iadd =>
    match popInt i with
    | .error (j, m) => .err j m
    | .ok (a, j) =>
      match popInt j with
      | .error (k, m) => .err k m
      | .ok (b, k) => .ok (push k (.int (b + a)))
  | .isubtract =>
    match popInt i with
    | .error (j, m) => .err j m
    | .ok (a, j) =>
      match popInt j with
      | .error (k, m) => .err k m
      | .ok (b, k) => .ok (push k (.int (b - a)))
  | .spush =>
    match nextString i with
    | .error (j, e) => stepErrOf j e
    | .ok (v, j) => .ok (push j (.str v))
  | .sadd =>
    match popString i with
    | .error (j, m) => .err j m
    | .ok (a, j) =>
      match popString j with
      | .error (k, m) => .err k m
      | .ok (b, k) => .ok (push k (.str (b ++ a)))

/-- interpreter.go `Step`: fetch one cell, require it to be an op code,
execute it.  (The Go default branch for a byte that is no declared op code
cannot arise here because `OpCode` is exactly the declared set.) -/
def step (i : Interpreter) : StepResult :=
  match nextInstruction i with
  | .error .eof => .eof i
  | .error (.fail m) => .err i m
  | .ok (v, j) =>
    match v with
    | .op c => executeOp c j
    | _ => .err j "invalid program, not an op code"

/-- Result of `Run`: normal termination (on the end-of-program signal), a
terminal error, or exhaustion of the step budget (the Go loop is unbounded;
fuel only makes the model total). -/
inductive RunResult where
  | ok : Interpreter → RunResult
  | err : Interpreter → String → RunResult
  | fuelOut : Interpreter → RunResult
deriving DecidableEq

/-- The state carried by any run result. -/
def RunResult.state : RunResult → Interpreter
  | .ok i => i
  | .err i _ => i
  | .fuelOut i => i

/-- interpreter.go `Run`: step until the end-of-program signal (success) or
a terminal error. -/
def run : Nat → Interpreter → RunResult
  | 0, i => .fuelOut i
  | n + 1, i =>
    match step i with
    | .ok j => run n j
    | .eof j => .ok j
    | .err j m => .err j m

/- ===================== Interpreter lemmas ===================== -/

theorem nextInstruction_eq_ok_iff {i : Interpreter} {v : Value} {j : Interpreter} :
    nextInstruction i = .ok (v, j) ↔
      i.program.instructions.get? i.ip = some v ∧
        j = ⟨i.program, i.ip + 1, i.stack, i.output⟩ := by
  unfold nextInstruction
  split
  · rename_i hip
    constructor
    · intro h
      exact absurd h (by simp)
    · rintro ⟨hv, -⟩
      rw [hip, List.get?_len_le (le_refl _)] at hv
      exact absurd hv (by simp)
  · split
    · rename_i instr hget
      simp only [Except.ok.injEq, Prod.mk.injEq]
      constructor
      · rintro ⟨hv, hj⟩
        exact ⟨hv ▸ hget, hj.symm⟩
      · rintro ⟨hv, hj⟩
        rw [hget] at hv
        exact ⟨(Option.some.injEq _ _ ▸ hv).symm ▸ rfl, hj.symm⟩
    · rename_i hget
      constructor
      · intro h
        exact absurd h (by simp)
      · rintro ⟨hv, -⟩
        rw [hget] at hv
        exact absurd hv (by simp)

theorem nextInstruction_eq_eof_iff {i : Interpreter} :
    nextInstruction i = .error .eof ↔ i.ip = i.program.instructions.length := by
  unfold nextInstruction
  split
  · rename_i hip
    simp [hip]
  · rename_i hip
    split <;> simp [hip]

theorem nextInstruction_program {i : Interpreter} {v : Value} {j : Interpreter}
    (h : nextInstruction i = .ok (v, j)) : j.program = i.program := by
  rw [nextInstruction_eq_ok_iff] at h
  rw [h.2]

theorem nextInt_error_program {i j : Interpreter} {e : StepErr}
    (h : nextInt i = .error (j, e)) : j.program = i.program := by
  unfold nextInt at h
  split at h
  · simp only [Except.error.injEq, Prod.mk.injEq] at h
    rw [← h.1]
  · split at h
    · rename_i hok _ _ hAsInt
      simp only [Except.error.injEq, Prod.mk.injEq] at h
      rw [← h.1]
      exact nextInstruction_program hok
    · exact absurd h (by simp)

theorem nextInt_ok_program {i j : Interpreter} {n : Int}
    (h : nextInt i = .ok (n, j)) : j.program = i.program := by
  unfold nextInt at h
  split at h
  · exact absurd h (by simp)
  · split at h
    · exact absurd h (by simp)
    · rename_i hok _ _ hAsInt
      simp only [Except.ok.injEq, Prod.mk.injEq] at h
      rw [← h.2]
      exact nextInstruction_program hok

theorem nextString_error_program {i j : Interpreter} {e : StepErr}
    (h : nextString i = .error (j, e)) : j.program = i.program := by
  unfold nextString at h
  split at h
  · simp only [Except.error.injEq, Prod.mk.injEq] at h
    rw [← h.1]
  · split at h
    · rename_i hok _ _ hAsString
      simp only [Except.error.injEq, Prod.mk.injEq] at h
      rw [← h.1]
      exact nextInstruction_program hok
    · exact absurd h (by simp)

theorem nextString_ok_program {i j : Interpreter} {s : String}
    (h : nextString i = .ok (s, j)) : j.program = i.program := by
  unfold nextString at h
  split at h
  · exact absurd h (by simp)
  · split at h
    · exact absurd h (by simp)
    · rename_i hok _ _ hAsString
      simp only [Except.ok.injEq, Prod.mk.injEq] at h
      rw [← h.2]
      exact nextInstruction_program hok

theorem popInt_error_program {i j : Interpreter} {m : String}
    (h : popInt i = .error (j, m)) : j.program = i.program := by
  unfold popInt at h
  split at h
  · simp only [Except.error.injEq, Prod.mk.injEq] at h
    rw [← h.1]
  · split at h
    · simp only [Except.error.injEq, Prod.mk.injEq] at h
      rw [← h.1]
      rfl
    · exact absurd h (by simp)

theorem popInt_ok_program {i j : Interpreter} {n : Int}
    (h : popInt i = .ok (n, j)) : j.program = i.program := by
  unfold popInt at h
  split at h
  · exact absurd h (by simp)
  · split at h
    · exact absurd h (by simp)
    · simp only [Except.ok.injEq, Prod.mk.injEq] at h
      rw [← h.2]
      rfl

theorem popString_error_program {i j : Interpreter} {m : String}
    (h : popString i = .error (j, m)) : j.program = i.program := by
  unfold popString at h
  split at h
  · simp only [Except.error.injEq, Prod.mk.injEq] at h
    rw [← h.1]
  · split at h
    · simp only [Except.error.injEq, Prod.mk.injEq] at h
      rw [← h.1]
      rfl
    · exact absurd h (by simp)

theorem popString_ok_program {i j : Interpreter} {s : String}
    (h : popString i = .ok (s, j)) : j.program = i.program := by
  unfold popString at h
  split at h
  · exact absurd h (by simp)
  · split at h
    · exact absurd h (by simp)
    · simp only [Except.ok.injEq, Prod.mk.injEq] at h
      rw [← h.2]
      rfl

theorem jump_ok_program {i j : Interpreter} {line : Int}
    (h : jump i line = .ok j) : j.program = i.program := by
  unfold jump at h
  split at h
  · exact absurd h (by simp)
  · simp only [Except.ok.injEq] at h
    rw [← h]
    rfl

theorem stepErrOf_state (i : Interpreter) (e : StepErr) : (stepErrOf i e).state = i := by
  cases e <;> rfl

theorem executeOp_program (c : OpCode) (i : Interpreter) :
    (executeOp c i).state.program = i.program := by
  cases c
  case putln => rfl
  case dup =>
    simp only [executeOp]
    split <;> rfl
  case put =>
    simp only [executeOp]
    split <;> rfl
  case jump =>
    simp only [executeOp]
    split
    · rename_i j e h
      rw [stepErrOf_state]
      exact nextInt_error_program h
    · rename_i line j h
      split
      · rename_i m hm
        exact nextInt_ok_program h
      · rename_i j2 hj
        show j2.program = i.program
        rw [jump_ok_program hj, nextInt_ok_program h]
  case jumpLessThan =>
    simp only [executeOp]
    split
    · rename_i j e h
      rw [stepErrOf_state]
      exact nextInt_error_program h
    · rename_i value j h
      have h1 := nextInt_ok_program h
      split
      · rename_i k e hk
        rw [stepErrOf_state]
        rw [nextInt_error_program hk, h1]
      · rename_i line k hk
        have h2 := nextInt_ok_program hk
        split
        · rename_i l m hl
          show l.program = i.program
          rw [popInt_error_program hl, h2, h1]
        · rename_i top l hl
          have h3 := popInt_ok_program hl
          split
          · split
            · show l.program = i.program
              rw [h3, h2, h1]
            · rename_i l2 hl2
              show l2.program = i.program
              rw [jump_ok_program hl2, h3, h2, h1]
          · show l.program = i.program
            rw [h3, h2, h1]
  case ipush =>
    simp only [executeOp]
    split
    · rename_i j e h
      rw [stepErrOf_state]
      exact nextInt_error_program h
    · rename_i v j h
      show (push j (Value.int v)).program = i.program
      show j.program = i.program
      exact nextInt_ok_program h
  case iadd =>
    simp only [executeOp]
    split
    · rename_i j m h
      exact popInt_error_program h
    · rename_i a j h
      have h1 := popInt_ok_program h
      split
      · rename_i k m hk
        show k.program = i.program
        rw [popInt_error_program hk, h1]
      · rename_i b k hk
        show k.program = i.program
        rw [popInt_ok_program hk, h1]
  case isubtract =>
    simp only [executeOp]
    split
    · rename_i j m h
      exact popInt_error_program h
    · rename_i a j h
      have h1 := popInt_ok_program h
      split
      · rename_i k m hk
        show k.program = i.program
        rw [popInt_error_program hk, h1]
      · rename_i b k hk
        show k.program = i.program
        rw [popInt_ok_program hk, h1]
  case spush =>
    simp only [executeOp]
    split
    · rename_i j e h
      rw [stepErrOf_state]
      exact nextString_error_program h
    · rename_i v j h
      show j.program = i.program
      exact nextString_ok_program h
  case sadd =>
    simp only [executeOp]
    split
    · rename_i j m h
      exact popString_error_program h
    · rename_i a j h
      have h1 := popString_ok_program h
      split
      · rename_i k m hk
        show k.program = i.program
        rw [popString_error_program hk, h1]
      · rename_i b k hk
        show k.program = i.program
        rw [popString_ok_program hk, h1]

theorem step_program (i : Interpreter) : (step i).state.program = i.program := by
  unfold step
  split
  · rfl
  · rfl
  · rename_i v j h
    split
    · rename_i c
      rw [executeOp_program c j, nextInstruction_program h]
    · simp only [StepResult.state]
      rw [nextInstruction_program h]

theorem nextInt_eof {i j : Interpreter} (h : nextInt i = .error (j, .eof)) :
    j = i ∧ i.ip = i.program.instructions.length := by
  unfold nextInt at h
  split at h
  · rename_i e he
    simp only [Except.error.injEq, Prod.mk.injEq] at h
    obtain ⟨hij, hee⟩ := h
    rw [hee] at he
    exact ⟨hij.symm, nextInstruction_eq_eof_iff.mp he⟩
  · split at h
    · simp at h
    · simp at h

theorem nextString_eof {i j : Interpreter} (h : nextString i = .error (j, .eof)) :
    j = i ∧ i.ip = i.program.instructions.length := by
  unfold nextString at h
  split at h
  · rename_i e he
    simp only [Except.error.injEq, Prod.mk.injEq] at h
    obtain ⟨hij, hee⟩ := h
    rw [hee] at he
    exact ⟨hij.symm, nextInstruction_eq_eof_iff.mp he⟩
  · split at h
    · simp at h
    · simp at h

theorem executeOp_eof (c : OpCode) (i j : Interpreter)
    (h : executeOp c i = .eof j) : j.ip = j.program.instructions.length := by
  cases c
  case putln => simp [executeOp] at h
  case dup =>
    simp only [executeOp] at h
    split at h <;> simp at h
  case put =>
    simp only [executeOp] at h
    split at h <;> simp at h
  case jump =>
    simp only [executeOp] at h
    split at h
    · rename_i k e hk
      cases e
      · simp only [stepErrOf, StepResult.eof.injEq] at h
        obtain ⟨hj, hip⟩ := nextInt_eof hk
        rw [← h, hj, hip]
      · simp [stepErrOf] at h
    · split at h <;> simp at h
  case jumpLessThan =>
    simp only [executeOp] at h
    split at h
    · rename_i k e hk
      cases e
      · simp only [stepErrOf, StepResult.eof.injEq] at h
        obtain ⟨hj, hip⟩ := nextInt_eof hk
        rw [← h, hj, hip]
      · simp [stepErrOf] at h
    · rename_i value k hk
      split at h
      · rename_i l e hl
        cases e
        · simp only [stepErrOf, StepResult.eof.injEq] at h
          obtain ⟨hj, hip⟩ := nextInt_eof hl
          rw [← h, hj, hip]
        · simp [stepErrOf] at h
      · split at h
        · simp at h
        · rename_i top l hl
          split at h
          · split at h <;> simp at h
          · simp at h
  case ipush =>
    simp only [executeOp] at h
    split at h
    · rename_i k e hk
      cases e
      · simp only [stepErrOf, StepResult.eof.injEq] at h
        obtain ⟨hj, hip⟩ := nextInt_eof hk
        rw [← h, hj, hip]
      · simp [stepErrOf] at h
    · simp at h
  case iadd =>
    simp only [executeOp] at h
    split at h
    · simp at h
    · split at h <;> simp at h
  case isubtract =>
    simp only [executeOp] at h
    split at h
    · simp at h
    · split at h <;> simp at h
  case spush =>
    simp only [executeOp] at h
    split at h
    · rename_i k e hk
      cases e
      · simp only [stepErrOf, StepResult.eof.injEq] at h
        obtain ⟨hj, hip⟩ := nextString_eof hk
        rw [← h, hj, hip]
      · simp [stepErrOf] at h
    · simp at h
  case sadd =>
    simp only [executeOp] at h
    split at h
    · simp at h
    · split at h <;> simp at h

theorem step_eof_ip {i j : Interpreter} (h : step i = .eof j) :
    j.ip = j.program.instructions.length := by
  unfold step at h
  split at h
  · rename_i he
    simp only [StepResult.eof.injEq] at h
    rw [← h]
    exact nextInstruction_eq_eof_iff.mp he
  · simp at h
  · rename_i v k hk
    split at h
    · rename_i c
      exact executeOp_eof c k j h
    · simp at h

theorem step_at_end {i : Interpreter} (h : i.ip = i.program.instructions.length) :
    step i = .eof i := by
  unfold step
  rw [nextInstruction_eq_eof_iff.mpr h]

theorem run_program (n : Nat) (i : Interpreter) : (run n i).state.program = i.program := by
  induction n generalizing i with
  | zero => rfl
  | succ n ih =>
    unfold run
    split
    · rename_i j h
      have := step_program i
      rw [h] at this
      rw [ih j]
      exact this
    · rename_i j h
      have := step_program i
      rw [h] at this
      exact this
    · rename_i j m h
      have := step_program i
      rw [h] at this
      exact this

theorem step_op (i : Interpreter) (c : OpCode)
    (hcell : i.program.instructions.get? i.ip = some (.op c)) :
    step i = executeOp c ⟨i.program, i.ip + 1, i.stack, i.output⟩ := by
  unfold step
  rw [nextInstruction_eq_ok_iff.mpr ⟨hcell, rfl⟩]

theorem popInt_nil (i : Interpreter) (h : i.stack = []) :
    popInt i = .error (i, "stack is empty") := by
  unfold popInt pop
  rw [h]

theorem popInt_cons_int (i : Interpreter) (n : Int) (rest : List Value)
    (h : i.stack = .int n :: rest) :
    popInt i = .ok (n, withStack i rest) := by
  unfold popInt pop
  rw [h]
  rfl

theorem popInt_cons_bad (i : Interpreter) (v : Value) (rest : List Value) (m : String)
    (h : i.stack = v :: rest) (hv : asInt v = .error m) :
    popInt i = .error (withStack i rest, m) := by
  unfold popInt pop
  rw [h]
  simp only [hv]

theorem popString_nil (i : Interpreter) (h : i.stack = []) :
    popString i = .error (i, "stack is empty") := by
  unfold popString pop
  rw [h]

theorem popString_cons_str (i : Interpreter) (s : String) (rest : List Value)
    (h : i.stack = .str s :: rest) :
    popString i = .ok (s, withStack i rest) := by
  unfold popString pop
  rw [h]
  rfl

theorem popString_cons_bad (i : Interpreter) (v : Value) (rest : List Value) (m : String)
    (h : i.stack = v :: rest) (hv : asString v = .error m) :
    popString i = .error (withStack i rest, m) := by
  unfold popString pop
  rw [h]
  simp only [hv]

/- ===================== Claims ===================== -/

/-- Out-of-range guard of `jump`: a 1-based line below 1 or above the jump
table length yields the invalid-jump-target error. -/
theorem jump_oor (i : Interpreter) (line : Int)
    (hrange : line < 1 ∨ (i.program.jumpTable.length : Int) < line) :
    jump i line = .error "invalid jump index" := by
  unfold jump
  rw [if_pos]
  omega

/-- C1 counterexample: the claim fails for `jumpl`.  On the one-line program
`jumpl 10 99` with stack `[0]`, the line argument 99 is out of range (one
parsed line), yet `step` succeeds (the Go code discards the error of
`i.jump(line)` in the `OpJumpLessThan` case) and the stack is popped from
`[0]` to `[]` rather than left unchanged. -/
theorem C1_counterexample :
    step ⟨⟨[Value.op .jumpLessThan, Value.int 10, Value.int 99], [0]⟩, 0, [Value.int 0], ""⟩ =
      .ok ⟨⟨[Value.op .jumpLessThan, Value.int 10, Value.int 99], [0]⟩, 3, [], ""⟩ ∧
    ([] : List Value) ≠ [Value.int 0] :=
  ⟨by decide, by decide⟩

/-- C1 (amended): a `jump` to a line `L` with `L < 1` or `L >` number of
parsed lines fails with the invalid-jump-target error and leaves the stack
unchanged; but a `jumpl` with an out-of-range line argument does not fail:
it still pops its integer counter, the error of the attempted jump (taken
when the counter is below the threshold) is discarded, and execution
continues at the next instruction. -/
theorem C1_jump_out_of_range_amended :
    (∀ (i : Interpreter) (line : Int),
        i.program.instructions.get? i.ip = some (.op .jump) →
        i.program.instructions.get? (i.ip + 1) = some (.int line) →
        (line < 1 ∨ (i.program.jumpTable.length : Int) < line) →
        step i = .err ⟨i.program, i.ip + 2, i.stack, i.output⟩ "invalid jump index") ∧
    (∀ (i : Interpreter) (value line top : Int) (rest : List Value),
        i.program.instructions.get? i.ip = some (.op .jumpLessThan) →
        i.program.instructions.get? (i.ip + 1) = some (.int value) →
        i.program.instructions.get? (i.ip + 2) = some (.int line) →
        i.stack = .int top :: rest →
        (line < 1 ∨ (i.program.jumpTable.length : Int) < line) →
        step i = .ok ⟨i.program, i.ip + 3, rest, i.output⟩) := by
  constructor
  · intro i line hcell0 hcell1 hrange
    unfold step
    rw [nextInstruction_eq_ok_iff.mpr ⟨hcell0, rfl⟩]
    simp only [executeOp, nextInt]
    rw [show nextInstruction ⟨i.program, i.ip + 1, i.stack, i.output⟩ =
        .ok (.int line, ⟨i.program, i.ip + 1 + 1, i.stack, i.output⟩) from
      nextInstruction_eq_ok_iff.mpr ⟨hcell1, rfl⟩]
    simp only [asInt]
    rw [jump_oor ⟨i.program, i.ip + 1 + 1, i.stack, i.output⟩ line hrange]
  · intro i value line top rest hcell0 hcell1 hcell2 hstack hrange
    unfold step
    rw [nextInstruction_eq_ok_iff.mpr ⟨hcell0, rfl⟩]
    simp only [executeOp, nextInt]
    rw [show nextInstruction ⟨i.program, i.ip + 1, i.stack, i.output⟩ =
        .ok (.int value, ⟨i.program, i.ip + 1 + 1, i.stack, i.output⟩) from
      nextInstruction_eq_ok_iff.mpr ⟨hcell1, rfl⟩]
    simp only [asInt]
    rw [show nextInstruction ⟨i.program, i.ip + 1 + 1, i.stack, i.output⟩ =
        .ok (.int line, ⟨i.program, i.ip + 1 + 1 + 1, i.stack, i.output⟩) from
      nextInstruction_eq_ok_iff.mpr ⟨hcell2, rfl⟩]
    simp only [asInt, popInt, pop, hstack, withStack]
    by_cases htv : top < value
    · rw [if_pos htv]
      rw [jump_oor ⟨i.program, i.ip + 1 + 1 + 1, rest, i.output⟩ line hrange]
    · rw [if_neg htv]

/-- C1 witness: both amended halves at concrete inputs: `jump 5` on a
one-line program fails with the stack untouched, `jumpl 10 99` with counter
7 pops the counter and succeeds. -/
theorem C1_jump_out_of_range_amended_witness :
    step ⟨⟨[Value.op .jump, Value.int 5], [0]⟩, 0, [], ""⟩ =
      .err ⟨⟨[Value.op .jump, Value.int 5], [0]⟩, 2, [], ""⟩ "invalid jump index" ∧
    step ⟨⟨[Value.op .jumpLessThan, Value.int 10, Value.int 99], [0]⟩, 0, [Value.int 7], ""⟩ =
      .ok ⟨⟨[Value.op .jumpLessThan, Value.int 10, Value.int 99], [0]⟩, 3, [], ""⟩ :=
  ⟨C1_jump_out_of_range_amended.1 ⟨⟨[Value.op .jump, Value.int 5], [0]⟩, 0, [], ""⟩ 5
      rfl rfl (by decide),
   C1_jump_out_of_range_amended.2 ⟨⟨[Value.op .jumpLessThan, Value.int 10, Value.int 99], [0]⟩,
      0, [Value.int 7], ""⟩ 10 99 7 [] rfl rfl rfl rfl (by decide)⟩

/-- C2: `isub` pops the later-pushed `b` first, then `a`, and pushes
`a - b` (push order, not pop order); the program
`ipush 5; ipush 3; isub; put` parses and runs to completion writing `2`. -/
theorem C2_isub_push_order :
    (∀ (i : Interpreter) (a b : Int) (rest : List Value),
        i.program.instructions.get? i.ip = some (.op .isubtract) →
        i.stack = .int b :: .int a :: rest →
        step i = .ok ⟨i.program, i.ip + 1, .int (a - b) :: rest, i.output⟩) ∧
    NewProgramFromReader "ipush 5 ipush 3 isub put" =
      .ok ⟨[.op .ipush, .int 5, .op .ipush, .int 3, .op .isubtract, .op .put], [0, 2, 4, 5]⟩ ∧
    run 20 (NewInterpreter
        ⟨[.op .ipush, .int 5, .op .ipush, .int 3, .op .isubtract, .op .put], [0, 2, 4, 5]⟩) =
      .ok ⟨⟨[.op .ipush, .int 5, .op .ipush, .int 3, .op .isubtract, .op .put], [0, 2, 4, 5]⟩,
        6, [], "2"⟩ := by
  refine ⟨?_, by decide, by decide⟩
  intro i a b rest hcell hstack
  rw [step_op i .isubtract hcell]
  simp only [executeOp, popInt, pop, asInt, withStack, push, hstack]

/-- C2 witness: executing `isub` on stack `[3, 5]` (5 pushed first) yields
`5 - 3 = 2`. -/
theorem C2_isub_push_order_witness :
    step ⟨⟨[Value.op .isubtract], [0]⟩, 0, [Value.int 3, Value.int 5], ""⟩ =
      .ok ⟨⟨[Value.op .isubtract], [0]⟩, 1, [Value.int 2], ""⟩ :=
  C2_isub_push_order.1 ⟨⟨[Value.op .isubtract], [0]⟩, 0, [Value.int 3, Value.int 5], ""⟩
    5 3 [] rfl rfl

/-- C3: the counting program `ipush 0; ipush 1; iadd; dup; put; putln; dup;
jumpl 10 2` parses to eight lines and `run` terminates normally with
output `1\n2\n3\n4\n5\n6\n7\n8\n9\n10\n`; the final state shows the loop
ended on the `jumpl` step that popped the counter 10 (no longer below 10),
leaving it on the stack copy and the pointer past the end. -/
theorem C3_counting_program :
    NewProgramFromReader "ipush 0 ipush 1 iadd dup put putln dup jumpl 10 2" =
      .ok ⟨[.op .ipush, .int 0, .op .ipush, .int 1, .op .iadd, .op .dup, .op .put,
        .op .putln, .op .dup, .op .jumpLessThan, .int 10, .int 2], [0, 2, 4, 5, 6, 7, 8, 9]⟩ ∧
    run 200 (NewInterpreter
        ⟨[.op .ipush, .int 0, .op .ipush, .int 1, .op .iadd, .op .dup, .op .put,
          .op .putln, .op .dup, .op .jumpLessThan, .int 10, .int 2], [0, 2, 4, 5, 6, 7, 8, 9]⟩) =
      .ok ⟨⟨[.op .ipush, .int 0, .op .ipush, .int 1, .op .iadd, .op .dup, .op .put,
          .op .putln, .op .dup, .op .jumpLessThan, .int 10, .int 2], [0, 2, 4, 5, 6, 7, 8, 9]⟩,
        12, [.int 10], "1\n2\n3\n4\n5\n6\n7\n8\n9\n10\n"⟩ :=
  ⟨by decide, by decide⟩

/-- C4: `step` reports exhaustion as the distinguished end-of-program
result, never equal to a runtime error; `run` converts it into normal
successful termination; and the state carried by the end-of-program result
sits at the end of the sequence, so stepping it again returns the very same
sentinel with the very same state (nothing re-executed, stack unchanged). -/
theorem C4_eof_sentinel :
    ∀ (i j : Interpreter) (n : Nat),
      step i = .eof j →
      run (n + 1) i = .ok j ∧
      step j = .eof j ∧
      ∀ (k : Interpreter) (m : String), step i ≠ .err k m := by
  intro i j n h
  refine ⟨?_, ?_, ?_⟩
  · unfold run
    rw [h]
  · exact step_at_end (step_eof_ip h)
  · intro k m hc
    rw [h] at hc
    exact StepResult.noConfusion hc

/-- C4 witness: on the empty program, `step` is the end-of-program sentinel
at once and `run` succeeds with the state unchanged. -/
theorem C4_eof_sentinel_witness :
    run 1 ⟨⟨[], []⟩, 0, [], ""⟩ = .ok ⟨⟨[], []⟩, 0, [], ""⟩ ∧
      step ⟨⟨[], []⟩, 0, [], ""⟩ = .eof ⟨⟨[], []⟩, 0, [], ""⟩ :=
  ⟨(C4_eof_sentinel ⟨⟨[], []⟩, 0, [], ""⟩ ⟨⟨[], []⟩, 0, [], ""⟩ 0 rfl).1,
   (C4_eof_sentinel ⟨⟨[], []⟩, 0, [], ""⟩ ⟨⟨[], []⟩, 0, [], ""⟩ 0 rfl).2.1⟩

/-- C5: `sadd` pops the later-pushed `b` first, then `a`, and pushes the
concatenation `a ++ b` (push order preserved); the program
`spush hello; spush " - "; spush world; sadd; sadd; put` writes exactly
`hello - world`.  (The program is built directly as a parsed `Program`:
a text argument is one whitespace-delimited token, so the literal `" - "`
cannot come out of the tokenizer.) -/
theorem C5_sadd_push_order :
    (∀ (i : Interpreter) (a b : String) (rest : List Value),
        i.program.instructions.get? i.ip = some (.op .sadd) →
        i.stack = .str b :: .str a :: rest →
        step i = .ok ⟨i.program, i.ip + 1, .str (a ++ b) :: rest, i.output⟩) ∧
    run 20 (NewInterpreter
        ⟨[.op .spush, .str "hello", .op .spush, .str " - ", .op .spush, .str "world",
          .op .sadd, .op .sadd, .op .put], [0, 2, 4, 6, 7, 8]⟩) =
      .ok ⟨⟨[.op .spush, .str "hello", .op .spush, .str " - ", .op .spush, .str "world",
          .op .sadd, .op .sadd, .op .put], [0, 2, 4, 6, 7, 8]⟩, 9, [], "hello - world"⟩ := by
  refine ⟨?_, by decide⟩
  intro i a b rest hcell hstack
  rw [step_op i .sadd hcell]
  simp only [executeOp, popString, pop, asString, withStack, push, hstack]

/-- C5 witness: executing `sadd` on stack `["b", "a"]` ("a" pushed first)
yields "ab". -/
theorem C5_sadd_push_order_witness :
    step ⟨⟨[Value.op .sadd], [0]⟩, 0, [Value.str "b", Value.str "a"], ""⟩ =
      .ok ⟨⟨[Value.op .sadd], [0]⟩, 1, [Value.str "ab"], ""⟩ :=
  C5_sadd_push_order.1 ⟨⟨[Value.op .sadd], [0]⟩, 0, [Value.str "b", Value.str "a"], ""⟩
    "a" "b" [] rfl rfl

/-- C8: popping or peeking an empty stack is the stack-underflow error;
executing `put` on an empty stack makes `step` fail with it and writes
nothing to the output sink; the one-instruction program `put` parses and
then errors with empty output. -/
theorem C8_put_empty_stack :
    (pop [] = .error "stack is empty" ∧ peek ([] : List Value) = .error "stack is empty") ∧
    (∀ (i : Interpreter),
        i.program.instructions.get? i.ip = some (.op .put) →
        i.stack = [] →
        step i = .err ⟨i.program, i.ip + 1, i.stack, i.output⟩ "stack is empty") ∧
    NewProgramFromReader "put" = .ok ⟨[.op .put], [0]⟩ ∧
    run 10 (NewInterpreter ⟨[.op .put], [0]⟩) =
      .err ⟨⟨[.op .put], [0]⟩, 1, [], ""⟩ "stack is empty" := by
  refine ⟨⟨rfl, rfl⟩, ?_, by decide, by decide⟩
  intro i hcell hstack
  rw [step_op i .put hcell]
  simp only [executeOp, pop, hstack]

/-- C8 witness: `put` on an empty stack with prior output `"x"`: the error
state keeps output `"x"`, nothing more written. -/
theorem C8_put_empty_stack_witness :
    step ⟨⟨[Value.op .put], [0]⟩, 0, [], "x"⟩ =
      .err ⟨⟨[Value.op .put], [0]⟩, 1, [], "x"⟩ "stack is empty" :=
  C8_put_empty_stack.2.1 ⟨⟨[Value.op .put], [0]⟩, 0, [], "x"⟩ rfl rfl

/-- C9: the bound `Program` is never mutated: the state after any `step`
and after any `run` (any number of steps) carries the very program the
interpreter was constructed with — only `ip`, `stack` and `output` change. -/
theorem C9_program_immutable :
    ∀ (i : Interpreter) (n : Nat),
      (step i).state.program = i.program ∧ (run n i).state.program = i.program :=
  fun i n => ⟨step_program i, run_program n i⟩

/-- C10: when `iadd`, `isub` or `sadd` starts on a non-empty stack and the
step fails (kind mismatch on either operand, or underflow of the second
pop), the already-popped operands are not pushed back: the error state's
stack is strictly shorter than before the step, while the output sink is
untouched. -/
theorem C10_binop_errors_not_atomic :
    ∀ (i : Interpreter) (c : OpCode) (v : Value) (rest : List Value),
      (c = .iadd ∨ c = .isubtract ∨ c = .sadd) →
      i.program.instructions.get? i.ip = some (.op c) →
      i.stack = v :: rest →
      ∀ (j : Interpreter) (m : String),
        step i = .err j m → j.stack.length < i.stack.length ∧ j.output = i.output := by
  intro i c v rest hop hcell hstack j m herr
  rw [step_op i c hcell] at herr
  have hs1 : (⟨i.program, i.ip + 1, i.stack, i.output⟩ : Interpreter).stack = v :: rest := hstack
  rcases hop with h | h | h <;> subst h
  case _ =>
    rcases v with c2 | a | s
    · simp only [executeOp, popInt_cons_bad _ _ _ _ hs1 rfl] at herr
      cases herr
      simp [withStack, hstack] <;> omega
    · simp only [executeOp, popInt_cons_int _ _ _ hs1] at herr
      rcases rest with _ | ⟨w, rest2⟩
      · simp only [popInt_nil (withStack ⟨i.program, i.ip + 1, i.stack, i.output⟩ []) rfl] at herr
        cases herr
        simp [withStack, hstack] <;> omega
      · rcases w with c3 | b | s3
        · simp only [popInt_cons_bad (withStack ⟨i.program, i.ip + 1, i.stack, i.output⟩
            (Value.op c3 :: rest2)) (Value.op c3) rest2 _ rfl rfl] at herr
          cases herr
          simp [withStack, hstack] <;> omega
        · simp only [popInt_cons_int (withStack ⟨i.program, i.ip + 1, i.stack, i.output⟩
            (Value.int b :: rest2)) b rest2 rfl] at herr
          cases herr
        · simp only [popInt_cons_bad (withStack ⟨i.program, i.ip + 1, i.stack, i.output⟩
            (Value.str s3 :: rest2)) (Value.str s3) rest2 _ rfl rfl] at herr
          cases herr
          simp [withStack, hstack] <;> omega
    · simp only [executeOp, popInt_cons_bad _ _ _ _ hs1 rfl] at herr
      cases herr
      simp [withStack, hstack] <;> omega
  case _ =>
    rcases v with c2 | a | s
    · simp only [executeOp, popInt_cons_bad _ _ _ _ hs1 rfl] at herr
      cases herr
      simp [withStack, hstack] <;> omega
    · simp only [executeOp, popInt_cons_int _ _ _ hs1] at herr
      rcases rest with _ | ⟨w, rest2⟩
      · simp only [popInt_nil (withStack ⟨i.program, i.ip + 1, i.stack, i.output⟩ []) rfl] at herr
        cases herr
        simp [withStack, hstack] <;> omega
      · rcases w with c3 | b | s3
        · simp only [popInt_cons_bad (withStack ⟨i.program, i.ip + 1, i.stack, i.output⟩
            (Value.op c3 :: rest2)) (Value.op c3) rest2 _ rfl rfl] at herr
          cases herr
          simp [withStack, hstack] <;> omega
        · simp only [popInt_cons_int (withStack ⟨i.program, i.ip + 1, i.stack, i.output⟩
            (Value.int b :: rest2)) b rest2 rfl] at herr
          cases herr
        · simp only [popInt_cons_bad (withStack ⟨i.program, i.ip + 1, i.stack, i.output⟩
            (Value.str s3 :: rest2)) (Value.str s3) rest2 _ rfl rfl] at herr
          cases herr
          simp [withStack, hstack] <;> omega
    · simp only [executeOp, popInt_cons_bad _ _ _ _ hs1 rfl] at herr
      cases herr
      simp [withStack, hstack] <;> omega
  case _ =>
    rcases v with c2 | a | s
    · simp only [executeOp, popString_cons_bad _ _ _ _ hs1 rfl] at herr
      cases herr
      simp [withStack, hstack] <;> omega
    · simp only [executeOp, popString_cons_bad _ _ _ _ hs1 rfl] at herr
      cases herr
      simp [withStack, hstack] <;> omega
    · simp only [executeOp, popString_cons_str _ _ _ hs1] at herr
      rcases rest with _ | ⟨w, rest2⟩
      · simp only [popString_nil (withStack ⟨i.program, i.ip + 1, i.stack, i.output⟩ []) rfl] at herr
        cases herr
        simp [withStack, hstack] <;> omega
      · rcases w with c3 | b | s3
        · simp only [popString_cons_bad (withStack ⟨i.program, i.ip + 1, i.stack, i.output⟩
            (Value.op c3 :: rest2)) (Value.op c3) rest2 _ rfl rfl] at herr
          cases herr
          simp [withStack, hstack] <;> omega
        · simp only [popString_cons_bad (withStack ⟨i.program, i.ip + 1, i.stack, i.output⟩
            (Value.int b :: rest2)) (Value.int b) rest2 _ rfl rfl] at herr
          cases herr
          simp [withStack, hstack] <;> omega
        · simp only [popString_cons_str (withStack ⟨i.program, i.ip + 1, i.stack, i.output⟩
            (Value.str s3 :: rest2)) s3 rest2 rfl] at herr
          cases herr

/-- C10 witness: `iadd` on stack `[str "x", 1]` pops the string, fails the
int assertion, and leaves a strictly shorter stack with no output. -/
theorem C10_binop_errors_not_atomic_witness :
    ([Value.int 1] : List Value).length < ([Value.str "x", Value.int 1] : List Value).length ∧
      ("" : String) = "" :=
  C10_binop_errors_not_atomic ⟨⟨[Value.op .iadd], [0]⟩, 0, [Value.str "x", Value.int 1], ""⟩
    .iadd (Value.str "x") [Value.int 1] (Or.inl rfl) rfl rfl
    ⟨⟨[Value.op .iadd], [0]⟩, 1, [Value.int 1], ""⟩ ("value not int: " ++ render (Value.str "x"))
    (by decide)

theorem parseOp_shape {tok : String} {rest : List String} {cells : List Value}
    {rest2 : List String} (h : parseOp tok rest = .ok (cells, rest2)) :
    ∃ c args, cells = Value.op c :: args := by
  unfold parseOp at h
  split at h
  · simp at h
  · rename_i sig hsig
    split at h
    · simp at h
    · rename_i args rest3 hargs
      simp only [Except.ok.injEq, Prod.mk.injEq] at h
      exact ⟨sig.op, args, h.1.symm⟩

theorem parseProgramLoop_spec :
    ∀ (fuel : Nat) (tokens : List String) (instrs : List Value) (jt : List Nat)
      (out : List Value × List Nat),
      parseProgramLoop fuel tokens instrs jt = .ok out →
      ∃ lines : List (List Value),
        (∀ l ∈ lines, ∃ c args, l = Value.op c :: args) ∧
        out.1 = instrs ++ lines.flatten ∧
        out.2 = jt ++ (List.range lines.length).map
          (fun k => instrs.length + ((lines.take k).flatten).length) := by
  intro fuel
  induction fuel with
  | zero =>
    intro tokens instrs jt out h
    cases tokens with
    | nil =>
      refine ⟨[], by simp, ?_, ?_⟩
      · simpa [parseProgramLoop] using congrArg Prod.fst (Except.ok.inj h).symm
      · simpa [parseProgramLoop] using congrArg Prod.snd (Except.ok.inj h).symm
    | cons t rest => simp [parseProgramLoop] at h
  | succ fuel ih =>
    intro tokens instrs jt out h
    cases tokens with
    | nil =>
      refine ⟨[], by simp, ?_, ?_⟩
      · simpa [parseProgramLoop] using congrArg Prod.fst (Except.ok.inj h).symm
      · simpa [parseProgramLoop] using congrArg Prod.snd (Except.ok.inj h).symm
    | cons tok rest =>
      rw [show parseProgramLoop (fuel + 1) (tok :: rest) instrs jt =
          (match parseOp tok rest with
            | .error e => .error ("unable to parse op code: " ++ e)
            | .ok (cells, rest2) =>
              parseProgramLoop fuel rest2 (instrs ++ cells) (jt ++ [instrs.length])) from rfl] at h
      revert h
      split
      · intro h
        simp at h
      · rename_i cells rest2 hop
        intro h
        obtain ⟨lines, hshape, h1, h2⟩ := ih rest2 (instrs ++ cells) (jt ++ [instrs.length]) out h
        refine ⟨cells :: lines, ?_, ?_, ?_⟩
        · intro l hl
          rcases List.mem_cons.mp hl with hl | hl
          · exact hl ▸ parseOp_shape hop
          · exact hshape l hl
        · rw [h1, List.flatten_cons, List.append_assoc]
        · rw [h2, List.length_cons, List.range_succ_eq_map, List.map_cons, List.map_map,
            List.append_assoc, List.singleton_append]
          have hmap : List.map
              (fun k => (instrs ++ cells).length + (List.take k lines).flatten.length)
              (List.range lines.length) =
              List.map ((fun k => instrs.length + (List.take k (cells :: lines)).flatten.length)
                ∘ Nat.succ) (List.range lines.length) := by
            apply List.map_congr_left
            intro a _
            simp only [Function.comp_apply, List.take_succ_cons, List.flatten_cons,
              List.length_append]
            omega
          rw [hmap]
          simp

/-- C6: for every successful parse, the instruction sequence is the
concatenation of the parsed lines (each an op-code cell followed by its
argument cells), the jump table has one entry per line, entry k equals the
length the instruction sequence had immediately before line k's cells were
appended (the flattened length of the preceding lines), the entries are
strictly increasing, and every entry indexes an op-code cell. -/
theorem C6_jump_table_invariants (tokens : List String) (instrs : List Value) (jt : List Nat)
    (h : parseProgram tokens = .ok (instrs, jt)) :
    ∃ lines : List (List Value),
      (∀ l ∈ lines, ∃ c args, l = Value.op c :: args) ∧
      instrs = lines.flatten ∧
      jt.length = lines.length ∧
      (∀ (k : Nat) (hk : k < jt.length),
          jt.get ⟨k, hk⟩ = ((lines.take k).flatten).length) ∧
      (∀ (k : Nat) (hk1 : k + 1 < jt.length) (hk0 : k < jt.length),
          jt.get ⟨k, hk0⟩ < jt.get ⟨k + 1, hk1⟩) ∧
      (∀ (k : Nat) (hk : k < jt.length),
          ∃ c : OpCode, instrs.get? (jt.get ⟨k, hk⟩) = some (Value.op c)) := by
  obtain ⟨lines, hshape, h1, h2⟩ :=
    parseProgramLoop_spec tokens.length tokens [] [] (instrs, jt) h
  simp only [List.nil_append, List.length_nil, Nat.zero_add] at h1 h2
  subst h1 h2
  have hlen : (List.map (fun k => ((List.take k lines).flatten).length)
      (List.range lines.length)).length = lines.length := by simp
  have hget : ∀ (k : Nat) (hk : k < (List.map (fun k => ((List.take k lines).flatten).length)
      (List.range lines.length)).length),
      (List.map (fun k => ((List.take k lines).flatten).length)
        (List.range lines.length)).get ⟨k, hk⟩ = ((List.take k lines).flatten).length := by
    intro k hk
    rw [List.get_eq_getElem, List.getElem_map, List.getElem_range]
  have hnonempty : ∀ (k : Nat) (hk : k < lines.length), 0 < (lines[k]).length := by
    intro k hk
    obtain ⟨c, args, hline⟩ := hshape (lines[k]) (List.getElem_mem hk)
    rw [hline]
    simp
  refine ⟨lines, hshape, rfl, hlen, hget, ?_, ?_⟩
  · intro k hk1 hk0
    rw [hget k hk0, hget (k + 1) hk1]
    have hk : k < lines.length := by
      rw [hlen] at hk1
      omega
    rw [List.take_succ, List.getElem?_eq_getElem hk]
    simp only [Option.toList_some, List.flatten_append, List.length_append,
      List.flatten_cons, List.flatten_nil, List.append_nil]
    have := hnonempty k hk
    omega
  · intro k hk
    rw [hget k hk]
    have hk' : k < lines.length := by
      rw [hlen] at hk
      omega
    obtain ⟨c, args, hline⟩ := hshape (lines.get ⟨k, hk'⟩) (List.get_mem lines k hk')
    have hsplit : lines = List.take k lines ++ lines.get ⟨k, hk'⟩ :: List.drop (k + 1) lines := by
      conv_lhs => rw [← List.take_append_drop k lines]
      rw [List.drop_eq_getElem_cons hk', List.get_eq_getElem]
    have hflat : lines.flatten = (List.take k lines).flatten ++
        (lines.get ⟨k, hk'⟩ ++ (List.drop (k + 1) lines).flatten) := by
      conv_lhs => rw [hsplit]
      rw [List.flatten_append, List.flatten_cons]
    refine ⟨c, ?_⟩
    rw [hflat, hline]
    rw [List.get?_eq_getElem?]
    rw [List.getElem?_append_right (le_refl _)]
    simp

/-- C6 witness: the two-line program `ipush 5  jumpl 10 2`. -/
theorem C6_jump_table_invariants_witness :
    parseProgram ["ipush", "5", "jumpl", "10", "2"] =
      .ok ([Value.op .ipush, Value.int 5, Value.op .jumpLessThan, Value.int 10, Value.int 2],
        [0, 2]) ∧
    ∃ lines : List (List Value),
      (∀ l ∈ lines, ∃ c args, l = Value.op c :: args) ∧
      [Value.op .ipush, Value.int 5, Value.op .jumpLessThan, Value.int 10, Value.int 2] =
        lines.flatten ∧
      ([0, 2] : List Nat).length = lines.length ∧
      (∀ (k : Nat) (hk : k < ([0, 2] : List Nat).length),
          ([0, 2] : List Nat).get ⟨k, hk⟩ = ((lines.take k).flatten).length) ∧
      (∀ (k : Nat) (hk1 : k + 1 < ([0, 2] : List Nat).length)
          (hk0 : k < ([0, 2] : List Nat).length),
          ([0, 2] : List Nat).get ⟨k, hk0⟩ < ([0, 2] : List Nat).get ⟨k + 1, hk1⟩) ∧
      (∀ (k : Nat) (hk : k < ([0, 2] : List Nat).length),
          ∃ c : OpCode,
            ([Value.op .ipush, Value.int 5, Value.op .jumpLessThan, Value.int 10,
              Value.int 2] : List Value).get? (([0, 2] : List Nat).get ⟨k, hk⟩) =
              some (Value.op c)) :=
  ⟨by decide, C6_jump_table_invariants ["ipush", "5", "jumpl", "10", "2"] _ _ (by decide)⟩

/-- C7: an unknown mnemonic makes the parser fail with the "invalid
instruction" error naming the token (also after the per-line wrap of the
scanning loop); running out of tokens while an argument is expected is the
"end of program" error; an integer-kind argument goes through base-10
signed integer parsing whose failure is propagated verbatim; a text-kind
argument is the single token taken verbatim. -/
theorem C7_parser_errors :
    (∀ (tok : String) (rest : List String),
        instructionSignatures tok = none →
        parseOp tok rest = .error ("invalid instruction " ++ tok)) ∧
    (∀ (tok : String) (rest : List String),
        instructionSignatures tok = none →
        parseProgram (tok :: rest) =
          .error ("unable to parse op code: " ++ ("invalid instruction " ++ tok))) ∧
    (∀ (t : ArgType) (ts : List ArgType),
        getArguments (t :: ts) [] = .error "end of program") ∧
    (∀ (tok : String) (e : String),
        Atoi tok = .error e → getArgument .argInt tok = .error e) ∧
    (∀ (tok : String) (n : Int),
        Atoi tok = .ok n → getArgument .argInt tok = .ok (.int n)) ∧
    (∀ (tok : String), getArgument .argString tok = .ok (.str tok)) := by
  refine ⟨?_, ?_, ?_, ?_, ?_, ?_⟩
  · intro tok rest h
    unfold parseOp
    rw [h]
  · intro tok rest h
    have hp : parseOp tok rest = .error ("invalid instruction " ++ tok) := by
      unfold parseOp
      rw [h]
    unfold parseProgram
    rw [List.length_cons]
    unfold parseProgramLoop
    rw [hp]
  · intro t ts
    rfl
  · intro tok e h
    unfold getArgument
    rw [h]
  · intro tok n h
    unfold getArgument
    rw [h]
  · intro tok
    rfl

/-- C7 witness: each error path at a concrete token. -/
theorem C7_parser_errors_witness :
    parseOp "bogus" [] = .error "invalid instruction bogus" ∧
    parseProgram ["bogus"] =
      .error ("unable to parse op code: " ++ ("invalid instruction " ++ "bogus")) ∧
    getArguments [ArgType.argInt] [] = .error "end of program" ∧
    getArgument .argInt "12x" =
      .error "strconv.Atoi: parsing \"12x\": invalid syntax" ∧
    getArgument .argInt "-7" = .ok (.int (-7)) ∧
    getArgument .argString "hi" = .ok (.str "hi") :=
  ⟨C7_parser_errors.1 "bogus" [] (by decide),
   C7_parser_errors.2.1 "bogus" [] (by decide),
   C7_parser_errors.2.2.1 ArgType.argInt [],
   C7_parser_errors.2.2.2.1 "12x" _ (by decide),
   C7_parser_errors.2.2.2.2.1 "-7" (-7) (by decide),
   C7_parser_errors.2.2.2.2.2 "hi"⟩


end Crust
